import Mathlib

/-
Verification of the fund-report ingestion and retrieval core
(backend/app/services/table_parser.py, document_processor.py,
vector_store.py and the query engine) as a shallow embedding in Lean.

Python strings are modelled as lists of characters (`Str`), optional
cells as `Option Str`, `decimal.Decimal` values by exact rationals,
and `datetime.date` by a year/month/day record.  Each definition below
mirrors one Python function of the repository; deviations forced by the
embedding (e.g. a fuel argument standing for a `while` loop) are noted
where they occur.
-/

abbrev Str := List Char

/-- Python `str.strip()`: drop whitespace from both ends. -/
def pyStrip (s : Str) : Str :=
  ((s.dropWhile Char.isWhitespace).reverse.dropWhile Char.isWhitespace).reverse

/-- Python `str.lower()` (ASCII case folding). -/
def lowerS (s : Str) : Str := s.map Char.toLower

/-- Python `needle in hay` substring test. -/
def isSubstrOf (needle hay : Str) : Bool :=
  (List.range (hay.length + 1)).any fun i => needle.isPrefixOf (hay.drop i)

/-- Boolean non-emptiness of a string (Python truthiness of `str`). -/
def neStr (s : Str) : Bool := !s.isEmpty

/-- Python `" ".join(l)` / `"\n".join(l)` etc. -/
def joinWith (sep : Str) (l : List Str) : Str := List.intercalate sep l

/-- Python `s.split(sep)` for a single-character separator. -/
def splitOnChar (sep : Char) : Str → List Str
  | [] => [[]]
  | c :: rest =>
      match splitOnChar sep rest with
      | [] => if c = sep then [[], []] else [[c]]
      | h :: t => if c = sep then [] :: h :: t else (c :: h) :: t

/-- Digit value of a character. -/
def digitVal (c : Char) : Nat := c.toNat - '0'.toNat

/-- Numeric value of a digit string (most significant first). -/
def natOfDigits (s : Str) : Nat := s.foldl (fun a c => a * 10 + digitVal c) 0

/-
TableParser (backend/app/services/table_parser.py)
-/

/-- `COMMON_HEADER_KEYWORDS` of table_parser.py. -/
def COMMON_HEADER_KEYWORDS : List Str :=
  ["date", "amount", "type", "description", "category",
   "call", "distribution", "adjustment", "usd", "value"].map String.data

/-- `TableParser._normalize_cell`: `str(cell).strip()` with `None` as `""`. -/
def normalize_cell : Option Str → Str
  | none => []
  | some s => pyStrip s

/-- `TableParser._row_nonempty_cells`. -/
def row_nonempty_cells (r : List (Option Str)) : Nat :=
  (r.filter fun c => neStr (normalize_cell c)).length

/-- Header-row score of `TableParser._detect_header_index`:
density plus twice the keyword hits over normalized lowercase cells. -/
def rowScore (r : List (Option Str)) : Nat :=
  row_nonempty_cells r +
    2 * (r.filter fun c =>
          COMMON_HEADER_KEYWORDS.any fun k => isSubstrOf k (lowerS (normalize_cell c))).length

/-- `TableParser._detect_header_index`: first row of maximal score
(the running best is replaced only on a strictly greater score;
the initial best score is `-1`, and an empty grid yields index 0). -/
def detect_header_index (rows : List (List (Option Str))) : Nat :=
  (rows.enum.foldl
    (fun best p => if (rowScore p.2 : Int) > best.2 then (p.1, (rowScore p.2 : Int)) else best)
    ((0 : Nat), (-1 : Int))).1

/-- A normalized table: headers plus data rows. -/
structure PTable where
  headers : List Str
  rows : List (List Str)
deriving DecidableEq, Repr

/-- Indices kept by `TableParser._drop_empty_columns`: positions with a
non-empty header, or every position when all headers are empty. -/
def keepIndicesOf (headers : List Str) : List Nat :=
  let ki := (List.range headers.length).filter fun i => neStr (headers.getD i [])
  if ki.isEmpty then List.range headers.length else ki

/-- `TableParser._drop_empty_columns`. -/
def drop_empty_columns (headers : List Str) (rows : List (List Str)) : PTable :=
  let ki := keepIndicesOf headers
  ⟨ki.map fun i => headers.getD i [],
   rows.map fun r => ki.map fun i => r.getD i []⟩

/-- Pad with empty strings or truncate a row to the header width
(the normalization inside `TableParser.parse_table`). -/
def padTruncate (w : Nat) (l : List Str) : List Str :=
  if l.length < w then l ++ List.replicate (w - l.length) [] else l.take w

/-- The header row of `TableParser.parse_table` before column pruning. -/
def preHeaders (raw : List (List (Option Str))) : List Str :=
  if raw = [] then [] else (raw.getD (detect_header_index raw) []).map normalize_cell

/-- The data rows of `TableParser.parse_table` before column pruning:
rows strictly after the header index, skipping all-empty rows, each
normalized and padded/truncated to the header width. -/
def preDataRows (raw : List (List (Option Str))) : List (List Str) :=
  if raw = [] then []
  else
    let hIdx := detect_header_index raw
    let width := (preHeaders raw).length
    raw.enum.filterMap fun p =>
      if p.1 ≤ hIdx then none
      else if row_nonempty_cells p.2 = 0 then none
      else some (padTruncate width (p.2.map normalize_cell))

/-- `TableParser.parse_table`. -/
def parse_table (raw : List (List (Option Str))) : PTable :=
  drop_empty_columns (preHeaders raw) (preDataRows raw)

/-- The lowercase text blob of `TableParser.classify_table`:
lowercased headers plus the first three data rows, space-joined. -/
def blobOf (t : PTable) : Str :=
  joinWith " ".data
    (t.headers.map lowerS ++ (t.rows.take 3).map fun r => lowerS (joinWith " ".data r))

/-- Number of keywords of `kws` occurring in `blob`. -/
def countKw (blob : Str) (kws : List Str) : Nat :=
  (kws.filter fun k => isSubstrOf k blob).length

/-- Capital-call score of `TableParser.classify_table`. -/
def ccScore (blob : Str) : Nat :=
  3 * countKw blob (["capital call", "drawdown", "contribution", "called", "call date"].map String.data)
    + countKw blob (["amount", "date", "type"].map String.data)

/-- Distribution score of `TableParser.classify_table`. -/
def distScore (blob : Str) : Nat :=
  3 * countKw blob (["distribution", "proceeds", "return", "paid", "dist."].map String.data)
    + countKw blob (["amount", "date", "type"].map String.data)

/-- Adjustment score of `TableParser.classify_table`. -/
def adjScore (blob : Str) : Nat :=
  3 * countKw blob (["adjustment", "management fee", "fee", "expense", "nav"].map String.data)
    + countKw blob (["amount", "date", "category", "description"].map String.data)

/-- `TableParser.classify_table`: argmax of the three scores in the order
capital_calls, distributions, adjustments (Python `max` keeps the first
maximum), `"unknown"` when the best score is below 3. -/
def classify_table (t : PTable) : Str :=
  let blob := blobOf t
  let s1 := ccScore blob
  let s2 := distScore blob
  let s3 := adjScore blob
  let best :=
    [("distributions".data, s2), ("adjustments".data, s3)].foldl
      (fun acc x => if x.2 > acc.2 then x else acc) ("capital_calls".data, s1)
  if best.2 ≥ 3 then best.1 else "unknown".data

/-- Maximal category score of a table. -/
def maxScore (t : PTable) : Nat :=
  max (ccScore (blobOf t)) (max (distScore (blobOf t)) (adjScore (blobOf t)))

/-- Score of a named category (0 for an unrecognized name). -/
def categoryScore (t : PTable) (name : Str) : Nat :=
  if name = "capital_calls".data then ccScore (blobOf t)
  else if name = "distributions".data then distScore (blobOf t)
  else if name = "adjustments".data then adjScore (blobOf t)
  else 0

/-- A classified table, as produced by `TableParser.parse_tables`. -/
structure CTable where
  table : PTable
  ttype : Str
deriving DecidableEq, Repr

/-- `TableParser.parse_tables`. -/
def parse_tables (ts : List (List (List (Option Str)))) : List CTable :=
  ts.map fun t => let pt := parse_table t; ⟨pt, classify_table pt⟩

/-
Supporting lemmas about column pruning.
-/

theorem map_getD_range (l : List Str) :
    (List.range l.length).map (fun i => l.getD i []) = l := by
  induction l with
  | nil => simp
  | cons a t ih =>
      rw [List.length_cons, List.range_succ_eq_map, List.map_cons, List.map_map]
      have h : ((fun i => (a :: t).getD i []) ∘ Nat.succ) = fun i => t.getD i [] := by
        funext i; simp [List.getD_cons_succ]
      rw [List.getD_cons_zero, h, ih]

theorem filter_range_map_getD (l : List Str) :
    ((List.range l.length).filter fun i => neStr (l.getD i [])).map (fun i => l.getD i [])
      = l.filter neStr := by
  induction l with
  | nil => simp
  | cons a t ih =>
      rw [List.length_cons, List.range_succ_eq_map, List.filter_cons, List.filter_map,
        List.filter_cons]
      have hc : ((fun i => neStr ((a :: t).getD i [])) ∘ Nat.succ) = fun i => neStr (t.getD i []) := by
        funext i; simp [List.getD_cons_succ]
      by_cases h : neStr a
      · rw [List.getD_cons_zero, if_pos (by simpa using h), if_pos (by simpa using h),
          List.map_cons, List.map_map, List.getD_cons_zero]
        have h2 : ((fun i => (a :: t).getD i []) ∘ Nat.succ) = fun i => t.getD i [] := by
          funext i; simp [List.getD_cons_succ]
        rw [h2, hc]
        exact congrArg (a :: ·) ih
      · rw [List.getD_cons_zero, if_neg (by simpa using h), if_neg (by simpa using h),
          List.map_map]
        have h2 : ((fun i => (a :: t).getD i []) ∘ Nat.succ) = fun i => t.getD i [] := by
          funext i; simp [List.getD_cons_succ]
        rw [hc, h2]
        exact ih

theorem keepIndices_headers (headers : List Str) :
    (keepIndicesOf headers).map (fun i => headers.getD i []) =
      if headers.all (fun h => h.isEmpty) then headers else headers.filter neStr := by
  unfold keepIndicesOf
  by_cases hall : headers.all (fun h => h.isEmpty)
  · have hfil : headers.filter neStr = [] := by
      rw [List.filter_eq_nil_iff]
      intro a ha
      have := (List.all_eq_true.mp hall) a ha
      simp [neStr, this]
    have : ((List.range headers.length).filter fun i => neStr (headers.getD i [])) = [] := by
      have hmap := filter_range_map_getD headers
      rw [hfil] at hmap
      exact List.map_eq_nil_iff.mp hmap
    simp only [this, List.isEmpty_nil, if_pos]
    rw [if_pos hall]
    exact map_getD_range headers
  · have hfil : headers.filter neStr ≠ [] := by
      intro hnil
      apply hall
      rw [List.all_eq_true]
      intro a ha
      by_contra hne
      have : neStr a = true := by simp [neStr, List.isEmpty_iff]; simpa [List.isEmpty_iff] using hne
      have : a ∈ headers.filter neStr := List.mem_filter.mpr ⟨ha, this⟩
      rw [hnil] at this
      exact absurd this (List.not_mem_nil a)
    have hki : ((List.range headers.length).filter fun i => neStr (headers.getD i [])) ≠ [] := by
      intro hnil
      apply hfil
      rw [← filter_range_map_getD, hnil, List.map_nil]
    have hkiB : ((List.range headers.length).filter fun i => neStr (headers.getD i [])).isEmpty = false := by
      rw [List.isEmpty_eq_false_iff_exists_mem]
      rcases List.exists_mem_of_ne_nil _ hki with ⟨x, hx⟩
      exact ⟨x, hx⟩
    simp only [hkiB, Bool.false_eq_true, if_false]
    rw [if_neg hall]
    exact filter_range_map_getD headers

/-- C1: every row of the `ParsedTable` returned by `parse_table` has length
equal to the number of headers, and a column is retained exactly when its
header string is non-empty, except that when every header is empty all
columns are kept. -/
theorem parse_table_row_width_and_pruning (raw : List (List (Option Str))) :
    (∀ r ∈ (parse_table raw).rows, r.length = (parse_table raw).headers.length) ∧
    (parse_table raw).headers =
      (if (preHeaders raw).all (fun h => h.isEmpty) then preHeaders raw
       else (preHeaders raw).filter neStr) := by
  constructor
  · intro r hr
    unfold parse_table drop_empty_columns at hr ⊢
    simp only [List.mem_map] at hr
    rcases hr with ⟨r0, _, rfl⟩
    simp [List.length_map]
  · unfold parse_table drop_empty_columns
    simpa using keepIndices_headers (preHeaders raw)

theorem parse_table_row_width_witness :
    (["2023-10-01".data, "1".data] : List Str).length =
      (parse_table [[some "Date".data, some "Amount".data],
                    [some "2023-10-01".data, some "1".data]]).headers.length :=
  (parse_table_row_width_and_pruning
      [[some "Date".data, some "Amount".data],
       [some "2023-10-01".data, some "1".data]]).1
    (["2023-10-01".data, "1".data]) (by decide)

/-- The argmax fold of `classify_table` written out: the winning name is
determined by the strict-greater comparisons of Python `max`, and the
winning score is the maximum of the three scores. -/
theorem classify_table_eq (t : PTable) :
    classify_table t =
      if 3 ≤ maxScore t then
        (if distScore (blobOf t) > ccScore (blobOf t) then
          (if adjScore (blobOf t) > distScore (blobOf t) then "adjustments".data
           else "distributions".data)
        else
          (if adjScore (blobOf t) > ccScore (blobOf t) then "adjustments".data
           else "capital_calls".data))
      else "unknown".data := by
  unfold classify_table maxScore
  simp only [List.foldl]
  by_cases h12 : distScore (blobOf t) > ccScore (blobOf t)
  · simp only [h12, if_true]
    by_cases h32 : adjScore (blobOf t) > distScore (blobOf t)
    · have hm : max (ccScore (blobOf t)) (max (distScore (blobOf t)) (adjScore (blobOf t)))
          = adjScore (blobOf t) := by omega
      simp [h12, h32, hm, ge_iff_le]
    · have hm : max (ccScore (blobOf t)) (max (distScore (blobOf t)) (adjScore (blobOf t)))
          = distScore (blobOf t) := by omega
      simp [h12, h32, hm, ge_iff_le]
  · simp only [h12, if_false]
    by_cases h31 : adjScore (blobOf t) > ccScore (blobOf t)
    · have hm : max (ccScore (blobOf t)) (max (distScore (blobOf t)) (adjScore (blobOf t)))
          = adjScore (blobOf t) := by omega
      simp [h12, h31, hm, ge_iff_le]
    · have hm : max (ccScore (blobOf t)) (max (distScore (blobOf t)) (adjScore (blobOf t)))
          = ccScore (blobOf t) := by omega
      simp [h12, h31, hm, ge_iff_le]

/-- C2: `classify_table` returns `"unknown"` exactly when the maximal
weighted keyword score is below 3, and otherwise returns a category whose
score is that maximum; the three header sets of the spec classify as
capital_calls, distributions and adjustments respectively. -/
theorem classify_table_threshold_and_argmax :
    (∀ t : PTable, classify_table t = "unknown".data ↔ maxScore t < 3) ∧
    (∀ t : PTable, 3 ≤ maxScore t → categoryScore t (classify_table t) = maxScore t) ∧
    classify_table ⟨["Call Date", "Amount", "Type", "Description"].map String.data, []⟩
      = "capital_calls".data ∧
    classify_table ⟨["Distribution Date", "Amount", "Type", "Description"].map String.data, []⟩
      = "distributions".data ∧
    classify_table ⟨["Adjustment Date", "Amount", "Category", "Description"].map String.data, []⟩
      = "adjustments".data := by
  refine ⟨?_, ?_, by decide, by decide, by decide⟩
  · intro t
    rw [classify_table_eq t]
    by_cases h : 3 ≤ maxScore t
    · rw [if_pos h]
      constructor
      · intro hu
        exfalso
        split_ifs at hu <;> revert hu <;> decide
      · intro hlt; omega
    · rw [if_neg h]
      constructor
      · intro _; omega
      · intro _; rfl
  · intro t h3
    have hcc : categoryScore t "capital_calls".data = ccScore (blobOf t) := by
      unfold categoryScore; rw [if_pos rfl]
    have hdist : categoryScore t "distributions".data = distScore (blobOf t) := by
      unfold categoryScore; rw [if_neg (by decide), if_pos rfl]
    have hadj : categoryScore t "adjustments".data = adjScore (blobOf t) := by
      unfold categoryScore; rw [if_neg (by decide), if_neg (by decide), if_pos rfl]
    rw [classify_table_eq t, if_pos h3]
    unfold maxScore at h3 ⊢
    by_cases h12 : distScore (blobOf t) > ccScore (blobOf t)
    · by_cases h32 : adjScore (blobOf t) > distScore (blobOf t)
      · rw [if_pos h12, if_pos h32, hadj]; omega
      · rw [if_pos h12, if_neg h32, hdist]; omega
    · by_cases h31 : adjScore (blobOf t) > ccScore (blobOf t)
      · rw [if_neg h12, if_pos h31, hadj]; omega
      · rw [if_neg h12, if_neg h31, hcc]; omega

theorem classify_table_threshold_witness :
    categoryScore ⟨["Distribution Date".data, "Amount".data], []⟩
        (classify_table ⟨["Distribution Date".data, "Amount".data], []⟩)
      = maxScore ⟨["Distribution Date".data, "Amount".data], []⟩ :=
  (classify_table_threshold_and_argmax).2.1
    ⟨["Distribution Date".data, "Amount".data], []⟩ (by decide)

/-
Amount parsing (DocumentProcessor._parse_amount of document_processor.py).
Python Decimal values are modelled by exact rationals.
-/

/-- Helper for the `\(.*\)` check: a `)` occurs ahead with no newline
before it (`.` does not match a newline in Python `re`). -/
def closeAheadNoNewline : Str → Bool
  | [] => false
  | c :: rest => if c = ')' then true else if c = '\n' then false else closeAheadNoNewline rest

/-- Python `re.search(r"\(.*\)", s)`: some `(` is followed, with no
intervening newline, by some `)`. -/
def hasParenSpan : Str → Bool
  | [] => false
  | c :: rest =>
      if c = '(' then closeAheadNoNewline rest || hasParenSpan rest else hasParenSpan rest

/-- `re.sub(r"[^0-9.,-]", "", s)`: keep digits, `.`, `,`, `-`. -/
def cleanAmountChars (s : Str) : Str :=
  s.filter fun c => c.isDigit || c = '.' || c = ',' || c = '-'

/-- The characters after the last comma of a string. -/
def afterLastComma (s : Str) : Str := (s.reverse.takeWhile (fun c => c ≠ ',')).reverse

/-- The separator normalization of `_parse_amount`: with both `,` and `.`
present drop all commas; with only commas present, replace each comma by a
dot when 1 or 2 characters follow the last comma, else drop all commas. -/
def normalizeSeparators (s : Str) : Str :=
  if s.contains ',' && s.contains '.' then s.filter fun c => c ≠ ','
  else if s.contains ',' then
    (if 1 ≤ (afterLastComma s).length ∧ (afterLastComma s).length ≤ 2 then
      s.map fun c => if c = ',' then '.' else c
    else s.filter fun c => c ≠ ',')
  else s

/-- Python `Decimal(str)` restricted to the characters that can reach it
here (digits, `.`, `-`): an optional leading minus sign, an integer part
and an optional fractional part after a single dot, with at least one
digit overall; anything else fails. -/
def parseDecimalStr (s : Str) : Option ℚ :=
  let sign : Bool := s.head? = some '-'
  let rest := if sign then s.tail else s
  let ip := rest.takeWhile Char.isDigit
  let rest2 := rest.dropWhile Char.isDigit
  let mag? : Option ℚ :=
    match rest2 with
    | [] => if ip = [] then none else some (mkRat (natOfDigits ip) 1)
    | '.' :: fr =>
        if fr.all Char.isDigit ∧ (ip ≠ [] ∨ fr ≠ []) then
          some (mkRat (natOfDigits ip * 10 ^ fr.length + natOfDigits fr) (10 ^ fr.length))
        else none
    | _ => none
  mag?.map fun v => if sign then -v else v

/-- The unsigned part of `_parse_amount` on an already-stripped input:
clean, normalize separators, parse as a decimal, and on failure retry on
the digits-and-minus projection. -/
def amountMagnitude (s : Str) : Option ℚ :=
  let cleaned := normalizeSeparators (cleanAmountChars s)
  match parseDecimalStr cleaned with
  | some v => some v
  | none => parseDecimalStr (cleaned.filter fun c => c.isDigit || c = '-')

/-- `DocumentProcessor._parse_amount`. -/
def parse_amount (s0 : Str) : Option ℚ :=
  let s := pyStrip s0
  if s = [] then none
  else (amountMagnitude s).map fun v => if hasParenSpan s then -v else v

/-- C3: amount parsing negates on a parenthesized span, removes commas when
both separators are present, treats a sole comma as a decimal separator
exactly when 1-2 digits follow it (else removes it), and matches the
spec's examples, returning none on unparseable input. -/
theorem parse_amount_rules :
    (∀ s : Str, pyStrip s ≠ [] → hasParenSpan (pyStrip s) = true →
      parse_amount s = (amountMagnitude (pyStrip s)).map (fun v => -v)) ∧
    (∀ s : Str, hasParenSpan (pyStrip s) = false →
      parse_amount s = amountMagnitude (pyStrip s)) ∧
    (∀ c : Str, c.contains ',' = true → c.contains '.' = true →
      normalizeSeparators c = c.filter fun ch => ch ≠ ',') ∧
    (∀ c : Str, c.contains ',' = true → c.contains '.' = false →
      (afterLastComma c).all Char.isDigit = true →
      ((1 ≤ (afterLastComma c).length ∧ (afterLastComma c).length ≤ 2 →
          normalizeSeparators c = c.map fun ch => if ch = ',' then '.' else ch) ∧
       (¬ (1 ≤ (afterLastComma c).length ∧ (afterLastComma c).length ≤ 2) →
          normalizeSeparators c = c.filter fun ch => ch ≠ ','))) ∧
    parse_amount "$1,234.56".data = some (mkRat 123456 100) ∧
    parse_amount "($1,000.00)".data = some (-(mkRat 1000 1)) ∧
    parse_amount "1,23".data = some (mkRat 123 100) ∧
    parse_amount "abc".data = none := by
  refine ⟨?_, ?_, ?_, ?_, by decide, by decide, by decide, by decide⟩
  · intro s hne hpar
    unfold parse_amount
    rw [if_neg hne, hpar]
    cases amountMagnitude (pyStrip s) <;> simp
  · intro s hpar
    unfold parse_amount
    by_cases hne : pyStrip s = []
    · rw [if_pos hne, hne] at *
      unfold amountMagnitude
      decide
    · rw [if_neg hne, hpar]
      cases amountMagnitude (pyStrip s) <;> simp
  · intro c hcomma hdot
    unfold normalizeSeparators
    rw [hcomma, hdot]
    simp
  · intro c hcomma hdot _
    constructor
    · intro hlen
      unfold normalizeSeparators
      rw [hcomma, hdot]
      simp only [Bool.and_false, Bool.false_eq_true, if_false, hcomma, if_pos hlen, if_true]
    · intro hlen
      unfold normalizeSeparators
      rw [hcomma, hdot]
      simp only [Bool.and_false, Bool.false_eq_true, if_false, hcomma, if_neg hlen, if_true]

theorem parse_amount_rules_witness :
    parse_amount "(2.50)".data = (amountMagnitude (pyStrip "(2.50)".data)).map (fun v => -v) :=
  (parse_amount_rules).1 "(2.50)".data (by decide) (by decide)

/-
Date parsing (DocumentProcessor._parse_date of document_processor.py).
Each strptime format is modelled by the regex CPython compiles for it:
4-digit year, month alternation 1[0-2]|0[1-9]|[1-9], day alternation
3[01]|[12]\d|0[1-9]|[1-9] (alternatives tried in that order), literal
separators, whitespace runs for format spaces, case-insensitive month
abbreviations for %b, full consumption of the input, and calendar
validation by the datetime constructor.
-/

/-- A calendar date. -/
structure PDate where
  year : Nat
  month : Nat
  day : Nat
deriving DecidableEq, Repr

/-- Gregorian leap year. -/
def isLeapYear (y : Nat) : Bool := y % 4 = 0 && (y % 100 ≠ 0 || y % 400 = 0)

/-- Days in a month. -/
def daysInMonth (y m : Nat) : Nat :=
  if m = 1 || m = 3 || m = 5 || m = 7 || m = 8 || m = 10 || m = 12 then 31
  else if m = 4 || m = 6 || m = 9 || m = 11 then 30
  else if isLeapYear y then 29 else 28

/-- Validity check of the `datetime` constructor (year 1..9999). -/
def validDate (y m d : Nat) : Bool :=
  1 ≤ y && y ≤ 9999 && 1 ≤ m && m ≤ 12 && 1 ≤ d && d ≤ daysInMonth y m

/-- The `%Y` field: exactly four digits. -/
def matchYear4 : Str → Option (Nat × Str)
  | a :: b :: c :: d :: rest =>
      if [a, b, c, d].all Char.isDigit then some (natOfDigits [a, b, c, d], rest) else none
  | _ => none

/-- The `%m` field: `1[0-2]|0[1-9]|[1-9]`, alternatives in order. -/
def matchMonthField : Str → Option (Nat × Str)
  | [] => none
  | [a] => if a.isDigit ∧ a ≠ '0' then some (digitVal a, []) else none
  | a :: b :: rest =>
      if a = '1' ∧ (b = '0' ∨ b = '1' ∨ b = '2') then some (10 + digitVal b, rest)
      else if a = '0' ∧ b.isDigit ∧ b ≠ '0' then some (digitVal b, rest)
      else if a.isDigit ∧ a ≠ '0' then some (digitVal a, b :: rest)
      else none

/-- The `%d` field: `3[01]|[12]\d|0[1-9]|[1-9]`, alternatives in order. -/
def matchDayField : Str → Option (Nat × Str)
  | [] => none
  | [a] => if a.isDigit ∧ a ≠ '0' then some (digitVal a, []) else none
  | a :: b :: rest =>
      if a = '3' ∧ (b = '0' ∨ b = '1') then some (30 + digitVal b, rest)
      else if (a = '1' ∨ a = '2') ∧ b.isDigit then some (10 * digitVal a + digitVal b, rest)
      else if a = '0' ∧ b.isDigit ∧ b ≠ '0' then some (digitVal b, rest)
      else if a.isDigit ∧ a ≠ '0' then some (digitVal a, b :: rest)
      else none

/-- A literal format character. -/
def matchLit (c : Char) : Str → Option Str
  | [] => none
  | x :: rest => if x = c then some rest else none

/-- A whitespace run (format spaces compile to one-or-more whitespace). -/
def matchWs (s : Str) : Option Str :=
  let r := s.dropWhile Char.isWhitespace
  if r.length < s.length then some r else none

/-- Month abbreviations of `%b`, matched case-insensitively. -/
def monthAbbrList : List (Str × Nat) :=
  [("jan", 1), ("feb", 2), ("mar", 3), ("apr", 4), ("may", 5), ("jun", 6),
   ("jul", 7), ("aug", 8), ("sep", 9), ("oct", 10), ("nov", 11), ("dec", 12)].map
    fun p => (p.1.data, p.2)

/-- The `%b` field. -/
def matchAbbrB : Str → Option (Nat × Str)
  | a :: b :: c :: rest =>
      match monthAbbrList.find? (fun p => p.1 = lowerS [a, b, c]) with
      | some p => some (p.2, rest)
      | none => none
  | _ => none

/-- `strptime(s, "%Y-%m-%d")`. -/
def fmtYMD (s : Str) : Option PDate := do
  let (y, r1) ← matchYear4 s
  let r2 ← matchLit '-' r1
  let (m, r3) ← matchMonthField r2
  let r4 ← matchLit '-' r3
  let (d, r5) ← matchDayField r4
  if r5 = [] ∧ validDate y m d then pure ⟨y, m, d⟩ else none

/-- `strptime(s, "%d/%m/%Y")`. -/
def fmtDMYslash (s : Str) : Option PDate := do
  let (d, r1) ← matchDayField s
  let r2 ← matchLit '/' r1
  let (m, r3) ← matchMonthField r2
  let r4 ← matchLit '/' r3
  let (y, r5) ← matchYear4 r4
  if r5 = [] ∧ validDate y m d then pure ⟨y, m, d⟩ else none

/-- `strptime(s, "%m/%d/%Y")`. -/
def fmtMDYslash (s : Str) : Option PDate := do
  let (m, r1) ← matchMonthField s
  let r2 ← matchLit '/' r1
  let (d, r3) ← matchDayField r2
  let r4 ← matchLit '/' r3
  let (y, r5) ← matchYear4 r4
  if r5 = [] ∧ validDate y m d then pure ⟨y, m, d⟩ else none

/-- `strptime(s, "%d-%m-%Y")`. -/
def fmtDMYdash (s : Str) : Option PDate := do
  let (d, r1) ← matchDayField s
  let r2 ← matchLit '-' r1
  let (m, r3) ← matchMonthField r2
  let r4 ← matchLit '-' r3
  let (y, r5) ← matchYear4 r4
  if r5 = [] ∧ validDate y m d then pure ⟨y, m, d⟩ else none

/-- `strptime(s, "%b %d, %Y")`. -/
def fmtBDY (s : Str) : Option PDate := do
  let (m, r1) ← matchAbbrB s
  let r2 ← matchWs r1
  let (d, r3) ← matchDayField r2
  let r4 ← matchLit ',' r3
  let r5 ← matchWs r4
  let (y, r6) ← matchYear4 r5
  if r6 = [] ∧ validDate y m d then pure ⟨y, m, d⟩ else none

/-- `strptime(s, "%d %b %Y")`. -/
def fmtDBY (s : Str) : Option PDate := do
  let (d, r1) ← matchDayField s
  let r2 ← matchWs r1
  let (m, r3) ← matchAbbrB r2
  let r4 ← matchWs r3
  let (y, r5) ← matchYear4 r4
  if r5 = [] ∧ validDate y m d then pure ⟨y, m, d⟩ else none

/-- The `YYYYMMDD` fallback on the 8 digits extracted from the input:
`strptime(digits, "%Y%m%d")`, which forces a two-digit month in 1..12 and
a two-digit day in 1..31, then calendar validity. -/
def parseYYYYMMDD (ds : Str) : Option PDate :=
  match ds with
  | [y1, y2, y3, y4, m1, m2, d1, d2] =>
      let y := natOfDigits [y1, y2, y3, y4]
      let m := natOfDigits [m1, m2]
      let d := natOfDigits [d1, d2]
      if 1 ≤ m ∧ m ≤ 12 ∧ 1 ≤ d ∧ d ≤ 31 ∧ validDate y m d then some ⟨y, m, d⟩ else none
  | _ => none

/-- `DocumentProcessor._parse_date`: the six formats in order, then the
digits-only `YYYYMMDD` fallback when exactly 8 digits remain. -/
def parse_date (s0 : Str) : Option PDate :=
  let s := pyStrip s0
  if s = [] then none
  else
    fmtYMD s <|> fmtDMYslash s <|> fmtMDYslash s <|> fmtDMYdash s <|> fmtBDY s <|> fmtDBY s <|>
      (let digits := s.filter Char.isDigit
       if digits.length = 8 then parseYYYYMMDD digits else none)

/-- C4: date parsing tries the six formats in order — so `%Y-%m-%d` wins
outright and slash dates resolve day-first — then falls back to
interpreting exactly 8 remaining digits as `YYYYMMDD`, and returns none
otherwise; with the spec's examples. -/
theorem parse_date_order_and_fallback :
    (∀ s d, fmtYMD (pyStrip s) = some d → parse_date s = some d) ∧
    (∀ s d, fmtYMD (pyStrip s) = none → fmtDMYslash (pyStrip s) = some d →
      parse_date s = some d) ∧
    (∀ s, fmtYMD (pyStrip s) = none → fmtDMYslash (pyStrip s) = none →
      fmtMDYslash (pyStrip s) = none → fmtDMYdash (pyStrip s) = none →
      fmtBDY (pyStrip s) = none → fmtDBY (pyStrip s) = none →
      parse_date s =
        (if ((pyStrip s).filter Char.isDigit).length = 8 then
          parseYYYYMMDD ((pyStrip s).filter Char.isDigit)
         else none)) ∧
    parse_date "2023-12-25".data = some ⟨2023, 12, 25⟩ ∧
    parse_date "25/12/2023".data = some ⟨2023, 12, 25⟩ ∧
    parse_date "20231225".data = some ⟨2023, 12, 25⟩ ∧
    parse_date "bad".data = none := by
  refine ⟨?_, ?_, ?_, by decide, by decide, by decide, by decide⟩
  · intro s d h
    have hne : pyStrip s ≠ [] := by
      intro h0
      rw [h0] at h
      have hnil : fmtYMD ([] : Str) = none := by decide
      rw [hnil] at h
      exact Option.noConfusion h
    unfold parse_date
    rw [if_neg hne, h]
    rfl
  · intro s d h1 h2
    have hne : pyStrip s ≠ [] := by
      intro h0
      rw [h0] at h2
      have hnil : fmtDMYslash ([] : Str) = none := by decide
      rw [hnil] at h2
      exact Option.noConfusion h2
    unfold parse_date
    rw [if_neg hne, h1, h2]
    rfl
  · intro s h1 h2 h3 h4 h5 h6
    by_cases hne : pyStrip s = []
    · unfold parse_date
      rw [if_pos hne, hne]
      decide
    · unfold parse_date
      rw [if_neg hne, h1, h2, h3, h4, h5, h6]
      rfl

theorem parse_date_order_witness :
    parse_date "2023/10/01".data =
      (if (((pyStrip "2023/10/01".data).filter Char.isDigit).length = 8) then
        parseYYYYMMDD ((pyStrip "2023/10/01".data).filter Char.isDigit)
       else none) := by
  exact (parse_date_order_and_fallback).2.2.1 "2023/10/01".data
    (by decide) (by decide) (by decide) (by decide) (by decide) (by decide)

/-
Chunking (DocumentProcessor._chunk_text of document_processor.py).
The `while start < len(text)` loop is embedded with a fuel argument; a
fuel of `text.length` always suffices because `start` grows by at least
one per iteration.
-/

/-- A text unit fed to the chunker (one entry of `text_content`). -/
structure TextItem where
  text : Str
  page : Nat
  sect : Option Str
  tableType : Option Str
deriving DecidableEq, Repr

/-- An emitted chunk with its metadata. -/
structure Chunk where
  content : Str
  page : Nat
  sect : Str
  tableType : Option Str
deriving DecidableEq, Repr

/-- Whitespace normalization of `_chunk_text`: keep the stripped versions
of the non-blank lines, joined by newlines. -/
def normalizeText (t : Str) : Str :=
  joinWith ['\n'] (((splitOnChar '\n' t).map pyStrip).filter fun l => l ≠ [])

/-- The window loop of `_chunk_text`: emit `text[start : start+maxLen]`,
stop before emitting a window whose stripped content is shorter than 20,
stop after emitting a window that reaches the end, else advance by
`step`. -/
def chunkLoop (maxLen step : Nat) (t : Str) : Nat → Nat → List Str
  | 0, _ => []
  | fuel + 1, start =>
      if start < t.length then
        let content := (t.drop start).take maxLen
        if (pyStrip content).length < 20 then []
        else if t.length ≤ start + maxLen then [content]
        else content :: chunkLoop maxLen step t fuel (start + step)
      else []

/-- `DocumentProcessor._chunk_text` for one text unit. -/
def chunkUnit (maxLen overlap : Nat) (t : Str) : List Str :=
  chunkLoop maxLen (max 1 (maxLen - overlap)) t t.length 0

/-- `settings.CHUNK_SIZE` (app/core/config.py). -/
def CHUNK_SIZE : Nat := 1000

/-- `settings.CHUNK_OVERLAP` (app/core/config.py). -/
def CHUNK_OVERLAP : Nat := 200

/-- `DocumentProcessor._chunk_text`. -/
def chunk_text (maxLen overlap : Nat) (items : List TextItem) : List Chunk :=
  List.flatten <| items.map fun item =>
    if item.text = [] then []
    else
      (chunkUnit maxLen overlap (normalizeText item.text)).map fun c =>
        ⟨c, item.page, item.sect.getD "text".data, item.tableType⟩

theorem chunkLoop_mem_bounds (maxLen step : Nat) (t : Str) :
    ∀ fuel start c, c ∈ chunkLoop maxLen step t fuel start →
      20 ≤ (pyStrip c).length ∧ c.length ≤ maxLen := by
  intro fuel
  induction fuel with
  | zero => intro start c hc; simp [chunkLoop] at hc
  | succ n ih =>
      intro start c hc
      unfold chunkLoop at hc
      by_cases h1 : start < t.length
      · rw [if_pos h1] at hc
        by_cases h2 : (pyStrip ((t.drop start).take maxLen)).length < 20
        · rw [if_pos h2] at hc
          simp at hc
        · rw [if_neg h2] at hc
          by_cases h3 : t.length ≤ start + maxLen
          · rw [if_pos h3] at hc
            simp at hc
            subst hc
            exact ⟨by omega, List.length_take_le maxLen (t.drop start)⟩
          · rw [if_neg h3] at hc
            rcases List.mem_cons.mp hc with hc | hc
            · subst hc
              exact ⟨by omega, List.length_take_le maxLen (t.drop start)⟩
            · exact ih (start + step) c hc
      · rw [if_neg h1] at hc
        simp at hc

theorem chunkLoop_window (maxLen step : Nat) (t : Str) (hstep : 1 ≤ step) :
    ∀ fuel start, t.length - start ≤ fuel →
      ∀ k, k < (chunkLoop maxLen step t fuel start).length →
        (chunkLoop maxLen step t fuel start).getD k [] =
          (t.drop (start + k * step)).take maxLen := by
  intro fuel
  induction fuel with
  | zero =>
      intro start hfuel k hk
      simp [chunkLoop] at hk
  | succ n ih =>
      intro start hfuel k hk
      unfold chunkLoop at hk ⊢
      by_cases h1 : start < t.length
      · rw [if_pos h1] at hk ⊢
        by_cases h2 : (pyStrip ((t.drop start).take maxLen)).length < 20
        · rw [if_pos h2] at hk
          simp at hk
        · rw [if_neg h2] at hk ⊢
          by_cases h3 : t.length ≤ start + maxLen
          · rw [if_pos h3] at hk ⊢
            simp at hk
            subst hk
            simp
          · rw [if_neg h3] at hk ⊢
            cases k with
            | zero => simp
            | succ k' =>
                simp only [List.length_cons, Nat.succ_lt_succ_iff] at hk
                simp only [List.getD_cons_succ]
                have := ih (start + step) (by omega) k' hk
                rw [this]
                congr 1
                ring_nf
      · rw [if_neg h1] at hk
        simp at hk

set_option maxRecDepth 16384 in
/-- C5: every emitted chunk has stripped length at least 20 and raw length
at most the chunk size; chunks are consecutive windows advancing by
`max 1 (CHUNK_SIZE - CHUNK_OVERLAP)`; and a 1200-character unit with the
default settings yields exactly two chunks of lengths 1000 and 400. -/
theorem chunk_text_bounds_windows_example :
    (∀ maxLen overlap items c, c ∈ chunk_text maxLen overlap items →
      20 ≤ (pyStrip c.content).length ∧ c.content.length ≤ maxLen) ∧
    (∀ maxLen overlap t k, k < (chunkUnit maxLen overlap t).length →
      (chunkUnit maxLen overlap t).getD k [] =
        (t.drop (k * max 1 (maxLen - overlap))).take maxLen) ∧
    (chunk_text CHUNK_SIZE CHUNK_OVERLAP
        [⟨List.replicate 1200 'a', 1, none, none⟩]).map (fun c => c.content.length)
      = [1000, 400] := by
  refine ⟨?_, ?_, by decide⟩
  · intro maxLen overlap items c hc
    unfold chunk_text at hc
    simp only [List.mem_flatten, List.mem_map] at hc
    rcases hc with ⟨l, ⟨item, _, rfl⟩, hcl⟩
    by_cases hit : item.text = []
    · rw [if_pos hit] at hcl
      simp at hcl
    · rw [if_neg hit] at hcl
      simp only [List.mem_map] at hcl
      rcases hcl with ⟨s, hs, rfl⟩
      exact chunkLoop_mem_bounds maxLen (max 1 (maxLen - overlap))
        (normalizeText item.text) (normalizeText item.text).length 0 s hs
  · intro maxLen overlap t k hk
    have := chunkLoop_window maxLen (max 1 (maxLen - overlap)) t (by omega)
      t.length 0 (by omega) k hk
    simpa using this

theorem chunk_text_bounds_witness :
    20 ≤ (pyStrip "Quarterly report narrative text".data).length ∧
      ("Quarterly report narrative text".data).length ≤ 1000 :=
  (chunk_text_bounds_windows_example).1 1000 200
    [⟨"Quarterly report narrative text".data, 1, none, none⟩]
    ⟨"Quarterly report narrative text".data, 1, "text".data, none⟩ (by decide)

/-
Hybrid retrieval fusion (VectorStore.hybrid_search of vector_store.py).
The three per-strategy result lists are the outputs of the dense, lexical
and pattern collaborators, modelled by their id lists in ranked order;
float scores are modelled by exact rationals.  Python set iteration order
is unspecified, so the union of ids is modelled by `dedup` and the
descending sort by `insertionSort`; the properties proved are insensitive
to the order chosen among equal scores.
-/

/-- `rank_map` of `hybrid_search`: a Python dict comprehension maps an id
to the index of its last occurrence in the result list. -/
def rankMap (l : List Int) (i : Int) : Option Nat :=
  match l with
  | [] => none
  | a :: t =>
      match rankMap t i with
      | some j => some (j + 1)
      | none => if a = i then some 0 else none

/-- One reciprocal-rank contribution: `w * 1/(60 + rank + 1)` for a
present id, 0 for an absent one. -/
def rrfTerm (w : ℚ) (r : Option Nat) : ℚ :=
  match r with
  | some rk => w * mkRat 1 (60 + rk + 1)
  | none => 0

/-- The fused score of an id across the three strategies. -/
def fusedScore (dense lex pat : List Int) (wd wl wp : ℚ) (i : Int) : ℚ :=
  rrfTerm wd (rankMap dense i) + rrfTerm wl (rankMap lex i) + rrfTerm wp (rankMap pat i)

/-- `VectorStore.hybrid_search`, from the per-strategy id lists onward:
union the ids, score each by reciprocal-rank fusion, sort descending by
fused score and keep the top `k`, attaching the fused score. -/
def hybrid_search (dense lex pat : List Int) (wd wl wp : ℚ) (k : Nat) :
    List (Int × ℚ) :=
  let score := fusedScore dense lex pat wd wl wp
  let allIds := (dense ++ lex ++ pat).dedup
  let ranked := allIds.insertionSort fun a b => score b ≤ score a
  (ranked.take k).map fun i => (i, score i)

theorem rankMap_eq_none (l : List Int) (i : Int) (h : i ∉ l) : rankMap l i = none := by
  induction l with
  | nil => rfl
  | cons a t ih =>
      have hat : i ∉ t := fun hm => h (List.mem_cons_of_mem a hm)
      have hai : a ≠ i := fun he => h (he ▸ List.mem_cons_self a t)
      unfold rankMap
      rw [ih hat, if_neg hai]

theorem rankMap_nodup (l : List Int) (i : Int) (hn : l.Nodup) (hm : i ∈ l) :
    rankMap l i = some (l.indexOf i) := by
  induction l with
  | nil => exact absurd hm (List.not_mem_nil i)
  | cons a t ih =>
      rcases List.nodup_cons.mp hn with ⟨hat, hnt⟩
      rcases List.mem_cons.mp hm with he | hmt
      · subst he
        unfold rankMap
        rw [rankMap_eq_none t i hat, if_pos rfl, List.indexOf_cons_self]
      · have hne : a ≠ i := fun he => hat (he ▸ hmt)
        unfold rankMap
        rw [ih hnt hmt, List.indexOf_cons_ne t hne]

theorem rrfTerm_nonneg (w : ℚ) (r : Option Nat) (hw : 0 ≤ w) : 0 ≤ rrfTerm w r := by
  cases r with
  | none => exact le_refl 0
  | some rk =>
      unfold rrfTerm
      apply mul_nonneg hw
      rw [Rat.mkRat_eq_div]
      positivity

theorem rrfTerm_pos (w : ℚ) (rk : Nat) (hw : 0 < w) : 0 < rrfTerm w (some rk) := by
  unfold rrfTerm
  apply mul_pos hw
  rw [Rat.mkRat_eq_div]
  positivity

theorem rankMap_isSome_of_mem (l : List Int) (i : Int) (hm : i ∈ l) :
    ∃ rk, rankMap l i = some rk := by
  induction l with
  | nil => exact absurd hm (List.not_mem_nil i)
  | cons a t ih =>
      unfold rankMap
      rcases hq : rankMap t i with _ | j
      · rcases List.mem_cons.mp hm with he | hmt
        · exact ⟨0, by rw [if_pos he.symm]⟩
        · rcases ih hmt with ⟨rk, hrk⟩
          rw [hrk] at hq
          exact absurd hq (by simp)
      · exact ⟨j + 1, rfl⟩

theorem fusedScore_pos (dense lex pat : List Int) (wd wl wp : ℚ) (i : Int)
    (hwd : 0 < wd) (hwl : 0 < wl) (hwp : 0 < wp)
    (hm : i ∈ dense ∨ i ∈ lex ∨ i ∈ pat) :
    0 < fusedScore dense lex pat wd wl wp i := by
  unfold fusedScore
  have h1 := rrfTerm_nonneg wd (rankMap dense i) (le_of_lt hwd)
  have h2 := rrfTerm_nonneg wl (rankMap lex i) (le_of_lt hwl)
  have h3 := rrfTerm_nonneg wp (rankMap pat i) (le_of_lt hwp)
  rcases hm with hm | hm | hm
  · rcases rankMap_isSome_of_mem dense i hm with ⟨rk, hrk⟩
    have := rrfTerm_pos wd rk hwd
    rw [hrk]
    nlinarith [this, h2, h3]
  · rcases rankMap_isSome_of_mem lex i hm with ⟨rk, hrk⟩
    have := rrfTerm_pos wl rk hwl
    rw [hrk]
    nlinarith [this, h1, h3]
  · rcases rankMap_isSome_of_mem pat i hm with ⟨rk, hrk⟩
    have := rrfTerm_pos wp rk hwp
    rw [hrk]
    nlinarith [this, h1, h2]

theorem rrfTerm_rank_eq (w : ℚ) (l : List Int) (i : Int) (hn : l.Nodup) :
    rrfTerm w (rankMap l i) =
      if i ∈ l then w * mkRat 1 (60 + l.indexOf i + 1) else 0 := by
  by_cases hm : i ∈ l
  · rw [if_pos hm, rankMap_nodup l i hn hm]
    rfl
  · rw [if_neg hm, rankMap_eq_none l i hm]
    rfl

/-- C6 counterexample: the claim quantifies over arbitrary caller-supplied
weights, but with a weight override of 0 the fused score of a returned
item is 0, which is not strictly positive. -/
theorem hybrid_search_zero_weight_counterexample :
    ¬ (∀ p ∈ hybrid_search [5] [] [] 0 0 0 5, 0 < p.2) := by
  have hs : hybrid_search [5] [] [] 0 0 0 5 = [(5, fusedScore [5] [] [] 0 0 0 5)] := by rfl
  have hscore : fusedScore [5] [] [] 0 0 0 5 = 0 := by
    have h1 : rankMap [5] 5 = some 0 := rfl
    have h2 : rankMap ([] : List Int) 5 = none := rfl
    unfold fusedScore
    rw [h1, h2]
    unfold rrfTerm
    simp
  intro h
  have h5 := h (5, fusedScore [5] [] [] 0 0 0 5) (by rw [hs]; exact List.mem_singleton.mpr rfl)
  rw [show ((5 : Int), fusedScore [5] [] [] 0 0 0 5).2 = fusedScore [5] [] [] 0 0 0 5 from rfl,
    hscore] at h5
  exact lt_irrefl 0 h5

/-- C6 (amended): for duplicate-free per-strategy lists and strictly
positive weights, every returned item's id comes from one of the
strategies, its fused score is the sum over the strategies containing it
of `weight * 1/(60 + rank + 1)` with rank its 0-based position there, all
returned scores are strictly positive, the output is sorted descending by
fused score, its length is `min k` the number of distinct ids, and when
all distinct ids fit within `k` every input id appears. -/
theorem hybrid_search_rrf_fusion (dense lex pat : List Int) (wd wl wp : ℚ) (k : Nat)
    (hnd : dense.Nodup) (hnl : lex.Nodup) (hnp : pat.Nodup)
    (hwd : 0 < wd) (hwl : 0 < wl) (hwp : 0 < wp) :
    (∀ p ∈ hybrid_search dense lex pat wd wl wp k,
      (p.1 ∈ dense ∨ p.1 ∈ lex ∨ p.1 ∈ pat) ∧
      p.2 = (if p.1 ∈ dense then wd * mkRat 1 (60 + dense.indexOf p.1 + 1) else 0) +
            (if p.1 ∈ lex then wl * mkRat 1 (60 + lex.indexOf p.1 + 1) else 0) +
            (if p.1 ∈ pat then wp * mkRat 1 (60 + pat.indexOf p.1 + 1) else 0) ∧
      0 < p.2) ∧
    ((hybrid_search dense lex pat wd wl wp k).map Prod.snd).Sorted (fun a b => b ≤ a) ∧
    (hybrid_search dense lex pat wd wl wp k).length
      = min k ((dense ++ lex ++ pat).dedup.length) ∧
    ((dense ++ lex ++ pat).dedup.length ≤ k →
      ∀ i, (i ∈ dense ∨ i ∈ lex ∨ i ∈ pat) →
        i ∈ (hybrid_search dense lex pat wd wl wp k).map Prod.fst) := by
  have hperm := List.perm_insertionSort
    (fun a b => fusedScore dense lex pat wd wl wp b ≤ fusedScore dense lex pat wd wl wp a)
    ((dense ++ lex ++ pat).dedup)
  refine ⟨?_, ?_, ?_, ?_⟩
  · intro p hp
    unfold hybrid_search at hp
    simp only [List.mem_map] at hp
    rcases hp with ⟨i, hi, rfl⟩
    have hiAll : i ∈ (dense ++ lex ++ pat).dedup := by
      have : i ∈ (List.insertionSort _ ((dense ++ lex ++ pat).dedup)) :=
        (List.take_sublist k _).mem hi
      exact hperm.mem_iff.mp this
    have hiu : i ∈ dense ∨ i ∈ lex ∨ i ∈ pat := by
      have := List.mem_dedup.mp hiAll
      simpa [List.mem_append, or_assoc] using this
    refine ⟨hiu, ?_, fusedScore_pos dense lex pat wd wl wp i hwd hwl hwp hiu⟩
    show fusedScore dense lex pat wd wl wp i = _
    unfold fusedScore
    rw [rrfTerm_rank_eq wd dense i hnd, rrfTerm_rank_eq wl lex i hnl,
      rrfTerm_rank_eq wp pat i hnp]
  · unfold hybrid_search
    haveI : IsTotal Int
        (fun a b => fusedScore dense lex pat wd wl wp b ≤ fusedScore dense lex pat wd wl wp a) :=
      ⟨fun a b => le_total _ _⟩
    haveI : IsTrans Int
        (fun a b => fusedScore dense lex pat wd wl wp b ≤ fusedScore dense lex pat wd wl wp a) :=
      ⟨fun _ _ _ h1 h2 => le_trans h2 h1⟩
    have hsorted := List.sorted_insertionSort
      (fun a b => fusedScore dense lex pat wd wl wp b ≤ fusedScore dense lex pat wd wl wp a)
      ((dense ++ lex ++ pat).dedup)
    have htake := List.Pairwise.sublist (List.take_sublist k _) hsorted
    rw [List.map_map]
    exact List.Pairwise.map _ (fun a b h => h) htake
  · unfold hybrid_search
    rw [List.length_map, List.length_take, hperm.length_eq]
  · intro hlen i hiu
    unfold hybrid_search
    have hiAll : i ∈ (dense ++ lex ++ pat).dedup := by
      rw [List.mem_dedup]
      simpa [List.mem_append, or_assoc] using hiu
    have hranked : i ∈ List.insertionSort _ ((dense ++ lex ++ pat).dedup) :=
      hperm.mem_iff.mpr hiAll
    have htk : (List.insertionSort
        (fun a b => fusedScore dense lex pat wd wl wp b ≤ fusedScore dense lex pat wd wl wp a)
        ((dense ++ lex ++ pat).dedup)).take k
        = List.insertionSort _ ((dense ++ lex ++ pat).dedup) :=
      List.take_of_length_le (by rw [hperm.length_eq]; exact hlen)
    rw [List.map_map]
    simp only [htk]
    refine List.mem_map.mpr ⟨i, hranked, rfl⟩

theorem hybrid_search_rrf_fusion_witness :
    ((hybrid_search [1, 2] [2, 3] [] 1 1 1 5).map Prod.snd).Sorted (fun a b => b ≤ a) :=
  (hybrid_search_rrf_fusion [1, 2] [2, 3] [] 1 1 1 5
    (by decide) (by decide) (by decide) (by decide) (by decide) (by decide)).2.1

/-
Column inference and row extraction
(DocumentProcessor._infer_column_indices / _extract_row_data), and the
table persistence loop (_save_parsed_tables).  The Transaction Store is
the external SQL session; a commit that fails is modelled by an oracle on
the table position, and rollback restores the committed rows unchanged.
-/

/-- The inferred `date`/`amount`/`type`/`description` column indices. -/
structure ColMap where
  dateIdx : Option Nat
  amountIdx : Option Nat
  typeIdx : Option Nat
  descIdx : Option Nat
deriving DecidableEq, Repr

/-- `DocumentProcessor._infer_column_indices`: first matching header wins
(`setdefault`); a type-ish header also serves as the description column
when no earlier header claimed it. -/
def infer_column_indices (headers : List Str) : ColMap :=
  headers.enum.foldl
    (fun m p =>
      let hl := lowerS p.2
      let m :=
        if (["date", "tgl", "call date", "distribution date", "adjustment date"].map
              String.data).any (fun k => isSubstrOf k hl) ∧ m.dateIdx = none then
          { m with dateIdx := some p.1 } else m
      let m :=
        if (["amount", "amt", "nominal", "usd", "$", "value"].map String.data).any
              (fun k => isSubstrOf k hl) ∧ m.amountIdx = none then
          { m with amountIdx := some p.1 } else m
      if (["type", "category", "class", "desc", "description"].map String.data).any
            (fun k => isSubstrOf k hl) then
        let m := if m.typeIdx = none then { m with typeIdx := some p.1 } else m
        if m.descIdx = none then { m with descIdx := some p.1 } else m
      else m)
    ⟨none, none, none, none⟩

/-- The per-row data extracted by `_extract_row_data` before validation. -/
structure RowData where
  rdate : Option PDate
  amount : Option ℚ
  rtype : Option Str
  descr : Option Str
deriving DecidableEq, Repr

/-- A stripped cell coerced to `None` when empty
(Python `(row[i] or "").strip() or None`). -/
def strippedCell (row : List Str) (i : Nat) : Option Str :=
  if i < row.length then
    (let v := pyStrip (row.getD i []); if v = [] then none else some v)
  else none

/-- The raw field extraction of `_extract_row_data` via the column map
(an out-of-range or missing index leaves the field absent). -/
def extract_row_raw (row : List Str) (cm : ColMap) : RowData :=
  { rdate := cm.dateIdx.bind fun i =>
      if i < row.length then parse_date (row.getD i []) else none
    amount := cm.amountIdx.bind fun i =>
      if i < row.length then parse_amount (row.getD i []) else none
    rtype := cm.typeIdx.bind fun i => strippedCell row i
    descr := cm.descIdx.bind fun i => strippedCell row i }

/-- `DocumentProcessor._extract_row_data`: empty rows yield nothing; a row
must carry a parseable amount or a non-empty type or description; the
description is truncated to 1000 characters. -/
def extract_row_data (row : List Str) (cm : ColMap) : Option RowData :=
  if row = [] then none
  else
    let d := extract_row_raw row cm
    if d.amount ≠ none ∨ d.rtype ≠ none ∨ d.descr ≠ none then
      some { d with descr := d.descr.map fun s => s.take 1000 }
    else none

/-- Python `x or Decimal("0")`: `Decimal("0")` replaces both a missing and
a zero value (both are falsy), which is the value `0` either way. -/
def decOr (x : Option ℚ) (dflt : ℚ) : ℚ :=
  match x with
  | none => dflt
  | some v => if v = 0 then dflt else v

/-- A persisted transaction row (CapitalCall / Distribution / Adjustment
of the Transaction Store). -/
inductive TransRecord where
  | capitalCall (fund : Nat) (rdate : PDate) (rtype : Option Str) (amount : ℚ)
      (descr : Option Str)
  | distribution (fund : Nat) (rdate : PDate) (rtype : Option Str) (amount : ℚ)
      (descr : Option Str)
  | adjustment (fund : Nat) (rdate : PDate) (rtype : Option Str) (amount : ℚ)
      (descr : Option Str)
deriving DecidableEq, Repr

/-- The record built for one extracted row in the branch selected by the
table type (missing date defaults to the ingestion date, missing amount
to `Decimal("0")`). -/
def recordOf (ttype : Str) (today : PDate) (fund : Nat) (d : RowData) : TransRecord :=
  if ttype = "capital_calls".data then
    .capitalCall fund (d.rdate.getD today) d.rtype (decOr d.amount 0) d.descr
  else if ttype = "distributions".data then
    .distribution fund (d.rdate.getD today) d.rtype (decOr d.amount 0) d.descr
  else
    .adjustment fund (d.rdate.getD today) d.rtype (decOr d.amount 0) d.descr

/-- The row batch `_save_parsed_tables` adds for one classified table:
lowercase the headers, infer columns, extract each row, skip rows without
signal. -/
def tableBatch (today : PDate) (fund : Nat) (ct : CTable) : List TransRecord :=
  let cm := infer_column_indices (ct.table.headers.map lowerS)
  (ct.table.rows.filterMap fun r => extract_row_data r cm).map (recordOf ct.ttype today fund)

/-- A table type with a persistence branch in `_save_parsed_tables`. -/
def knownType (t : Str) : Bool :=
  t = "capital_calls".data || t = "distributions".data || t = "adjustments".data

/-- One iteration of the `_save_parsed_tables` loop over the committed
rows: skip empty tables, skip unknown types, commit the batch, and on a
commit failure roll the batch back leaving the store unchanged. -/
def saveStep (fails : Nat → Bool) (today : PDate) (fund : Nat)
    (db : List TransRecord) (p : Nat × CTable) : List TransRecord :=
  if p.2.table.rows = [] then db
  else if knownType p.2.ttype then
    (if fails p.1 then db else db ++ tableBatch today fund p.2)
  else db

/-- `DocumentProcessor._save_parsed_tables` over the sequence of parsed
tables, starting from the already-committed rows `db`. -/
def save_parsed_tables (fails : Nat → Bool) (today : PDate) (fund : Nat)
    (tables : List CTable) (db : List TransRecord) : List TransRecord :=
  tables.enum.foldl (saveStep fails today fund) db

theorem saveFold_eq (fails : Nat → Bool) (today : PDate) (fund : Nat) :
    ∀ (tables : List CTable) (n : Nat) (db : List TransRecord),
      (tables.enumFrom n).foldl (saveStep fails today fund) db =
        db ++ ((tables.enumFrom n).filterMap fun p =>
          if p.2.table.rows ≠ [] ∧ knownType p.2.ttype = true ∧ fails p.1 = false then
            some (tableBatch today fund p.2)
          else none).flatten := by
  intro tables
  induction tables with
  | nil => intro n db; simp
  | cons a t ih =>
      intro n db
      rw [List.enumFrom_cons, List.foldl_cons, List.filterMap_cons]
      by_cases h1 : a.table.rows = []
      · have hstep : saveStep fails today fund db (n, a) = db := by
          unfold saveStep; rw [if_pos h1]
        rw [hstep, if_neg (by simp [h1]), ih]
      · by_cases h2 : knownType a.ttype = true
        · by_cases h3 : fails n = true
          · have hstep : saveStep fails today fund db (n, a) = db := by
              unfold saveStep
              rw [if_neg h1, if_pos h2, if_pos h3]
            rw [hstep, if_neg (by simp [h1, h2, h3]), ih]
          · have hstep : saveStep fails today fund db (n, a)
                = db ++ tableBatch today fund a := by
              unfold saveStep
              rw [if_neg h1, if_pos h2, if_neg h3]
            rw [hstep,
              if_pos ⟨h1, h2, by simpa using h3⟩, ih]
            simp [List.append_assoc]
        · have hstep : saveStep fails today fund db (n, a) = db := by
            unfold saveStep
            rw [if_neg h1, if_neg h2]
          rw [hstep, if_neg (by simp [h1, h2]), ih]

/-- C8: persisting a sequence of classified tables commits exactly the
batches of the non-failing known-type non-empty tables, in order, after
the previously committed rows: a failing table's batch is rolled back
without touching the store, earlier tables' committed rows are unchanged,
and later tables are still processed. -/
theorem save_parsed_tables_isolation (fails : Nat → Bool) (today : PDate) (fund : Nat)
    (tables : List CTable) (db : List TransRecord) :
    save_parsed_tables fails today fund tables db =
      db ++ (tables.enum.filterMap fun p =>
        if p.2.table.rows ≠ [] ∧ knownType p.2.ttype = true ∧ fails p.1 = false then
          some (tableBatch today fund p.2)
        else none).flatten := by
  unfold save_parsed_tables
  rw [List.enum]
  exact saveFold_eq fails today fund tables 0 db

/-- C10: a data row whose signal is a non-empty type or description but
whose amount is absent or unparseable is still persisted, and the
persisted record's amount is exactly the decimal 0 — an amount-parse
failure never blocks persistence and is encoded as zero. -/
theorem unparseable_amount_persists_as_zero (row : List Str) (cm : ColMap)
    (hrow : row ≠ [])
    (hamt : (extract_row_raw row cm).amount = none)
    (hsig : (extract_row_raw row cm).rtype ≠ none ∨ (extract_row_raw row cm).descr ≠ none) :
    extract_row_data row cm =
        some { extract_row_raw row cm with
                 descr := (extract_row_raw row cm).descr.map fun s => s.take 1000 } ∧
      ∀ ttype today fund d, extract_row_data row cm = some d →
        ∃ rdate rtype descr,
          recordOf ttype today fund d = .capitalCall fund rdate rtype 0 descr ∨
          recordOf ttype today fund d = .distribution fund rdate rtype 0 descr ∨
          recordOf ttype today fund d = .adjustment fund rdate rtype 0 descr := by
  have hdata : extract_row_data row cm =
      some { extract_row_raw row cm with
               descr := (extract_row_raw row cm).descr.map fun s => s.take 1000 } := by
    unfold extract_row_data
    rw [if_neg hrow, if_pos (Or.inr hsig)]
  refine ⟨hdata, ?_⟩
  intro ttype today fund d hd
  rw [hdata] at hd
  have hd' := Option.some.inj hd
  have hdam : d.amount = none := by rw [← hd']; exact hamt
  have hzero : decOr d.amount 0 = 0 := by rw [hdam]; rfl
  refine ⟨d.rdate.getD today, d.rtype, d.descr, ?_⟩
  unfold recordOf
  by_cases h1 : ttype = "capital_calls".data
  · rw [if_pos h1, hzero]
    exact Or.inl rfl
  · rw [if_neg h1]
    by_cases h2 : ttype = "distributions".data
    · rw [if_pos h2, hzero]
      exact Or.inr (Or.inl rfl)
    · rw [if_neg h2, hzero]
      exact Or.inr (Or.inr rfl)

theorem unparseable_amount_witness :
    extract_row_data ["n/a".data, "Fee".data] ⟨none, some 0, some 1, some 1⟩ =
      some { extract_row_raw ["n/a".data, "Fee".data] ⟨none, some 0, some 1, some 1⟩ with
               descr := (extract_row_raw ["n/a".data, "Fee".data]
                          ⟨none, some 0, some 1, some 1⟩).descr.map fun s => s.take 1000 } :=
  (unparseable_amount_persists_as_zero ["n/a".data, "Fee".data] ⟨none, some 0, some 1, some 1⟩
    (by decide) (by decide) (by decide)).1

/-
Page-by-page processing (DocumentProcessor.process_document).
The Page Extractor collaborator is modelled by its outcome: opening the
file either fails (a distinguished malformed-input signal or any other
exception) or yields a list of per-page outcomes, where a page either
raises (with a message) or yields its text and raw table grids.  The
database session is absent (`db=None` path); the vector store add is
modelled as total, so the claim's let-through of unhandled exceptions is
outside the model.
-/

/-- The extracted content of one successfully processed page. -/
structure PageData where
  ptext : Str
  rawTables : List (List (List (Option Str)))
deriving Repr

/-- A failure opening the whole file. -/
inductive OpenErr where
  | malformed (msg : Str)
  | openError (msg : Str)
deriving DecidableEq, Repr

/-- Overall processing status. -/
inductive PStatus where
  | completed
  | failed
deriving DecidableEq, Repr

/-- The `stats` dictionary of `process_document`. -/
structure Stats where
  pages : Nat
  tables : Nat
  chunks : Nat
  pages_skipped : Nat
  errors : List Str
deriving DecidableEq, Repr

/-- The result of `process_document`. -/
structure ProcResult where
  status : PStatus
  error : Option Str
  stats : Stats
deriving DecidableEq, Repr

/-- The all-zero stats returned when opening the file fails. -/
def zeroStats : Stats := ⟨0, 0, 0, 0, []⟩

/-- Decimal digits of a number, as characters. -/
def natStr (n : Nat) : Str := (Nat.repr n).data

/-- The text units a successfully processed page contributes: its page
text when non-blank, then one pipe-joined summary per parsed table
(type line, header line, first 10 data rows). -/
def pageItems (idx : Nat) (pd : PageData) : List TextItem :=
  (if pyStrip pd.ptext ≠ [] then [⟨pd.ptext, idx, none, none⟩] else []) ++
    ((parse_tables pd.rawTables).map fun t =>
      let headerLine := joinWith " | ".data t.table.headers
      let rowsLines := (t.table.rows.map (joinWith " | ".data)).take 10
      let tableText := "Table(".data ++ t.ttype ++ ")".data ++ ['\n'] ++ headerLine ++
        ['\n'] ++ joinWith ['\n'] rowsLines
      if pyStrip tableText ≠ [] then [⟨tableText, idx, some "table".data, t.ttype⟩] else []).flatten

/-- The running page-loop accumulator of `process_document`. -/
structure PageAcc where
  tables : Nat
  skipped : Nat
  errors : List Str
  items : List TextItem

/-- One iteration of the page loop: a page error is recorded as a skipped
page with a `page_<index>: <message>` diagnostic and the loop continues;
a successful page contributes its table count and text units. -/
def pageStep (acc : PageAcc) (p : Nat × Except Str PageData) : PageAcc :=
  match p.2 with
  | .error msg =>
      { acc with
          skipped := acc.skipped + 1
          errors := acc.errors ++ ["page_".data ++ natStr p.1 ++ ": ".data ++ msg] }
  | .ok pd =>
      { acc with
          tables := acc.tables + (parse_tables pd.rawTables).length
          items := acc.items ++ pageItems p.1 pd }

/-- `DocumentProcessor.process_document` over the Page Extractor outcome:
an open failure returns `failed` with the tagged error and zero stats;
otherwise every page is visited (1-based indices), per-page failures are
skipped and recorded, remaining text is chunked, and the status is
`completed`. -/
def process_document (openRes : Except OpenErr (List (Except Str PageData))) : ProcResult :=
  match openRes with
  | .error (.malformed m) => ⟨.failed, some ("malformed_pdf: ".data ++ m), zeroStats⟩
  | .error (.openError m) => ⟨.failed, some ("pdf_open_error: ".data ++ m), zeroStats⟩
  | .ok pages =>
      let acc := (pages.enumFrom 1).foldl pageStep ⟨0, 0, [], []⟩
      let chunks := chunk_text CHUNK_SIZE CHUNK_OVERLAP acc.items
      ⟨.completed, none,
        ⟨pages.length, acc.tables, chunks.length, acc.skipped, acc.errors⟩⟩

/-- Whether a page outcome is a failure. -/
def isErrPage : Except Str PageData → Bool
  | .error _ => true
  | .ok _ => false

/-- The diagnostic entry of a failing page at a given 1-based index. -/
def errEntry (p : Nat × Except Str PageData) : Option Str :=
  match p.2 with
  | .error m => some ("page_".data ++ natStr p.1 ++ ": ".data ++ m)
  | .ok _ => none

theorem pageFold_skipped_errors :
    ∀ (pages : List (Except Str PageData)) (n : Nat) (acc : PageAcc),
      (((pages.enumFrom n).foldl pageStep acc).skipped
          = acc.skipped + (pages.filter isErrPage).length) ∧
      ((pages.enumFrom n).foldl pageStep acc).errors
          = acc.errors ++ (pages.enumFrom n).filterMap errEntry := by
  intro pages
  induction pages with
  | nil => intro n acc; simp
  | cons a t ih =>
      intro n acc
      rw [List.enumFrom_cons, List.foldl_cons, List.filterMap_cons]
      cases a with
      | error m =>
          have hstep : pageStep acc (n, Except.error m) =
              { acc with
                  skipped := acc.skipped + 1
                  errors := acc.errors ++ ["page_".data ++ natStr n ++ ": ".data ++ m] } := rfl
          rw [hstep]
          refine ⟨?_, ?_⟩
          · rw [(ih (n + 1) _).1]
            simp [List.filter_cons, isErrPage]
            omega
          · rw [(ih (n + 1) _).2]
            simp [errEntry]
      | ok pd =>
          have hstep : pageStep acc (n, Except.ok pd) =
              { acc with
                  tables := acc.tables + (parse_tables pd.rawTables).length
                  items := acc.items ++ pageItems n pd } := rfl
          rw [hstep]
          refine ⟨?_, ?_⟩
          · rw [(ih (n + 1) _).1]
            simp [List.filter_cons, isErrPage]
          · rw [(ih (n + 1) _).2]
            simp [errEntry]

/-- C7: `process_document` returns `failed` (tagged `malformed_pdf` or
`pdf_open_error`, with zero stats) exactly for whole-file open failures;
when the file opens, every per-page failure only increments
`pages_skipped` and appends a `page_<index>: <message>` diagnostic while
processing continues, and the overall status is `completed` with no
error regardless of how many pages failed. -/
theorem process_document_page_isolation :
    (∀ m, process_document (Except.error (OpenErr.malformed m)) =
      ⟨.failed, some ("malformed_pdf: ".data ++ m), zeroStats⟩) ∧
    (∀ m, process_document (Except.error (OpenErr.openError m)) =
      ⟨.failed, some ("pdf_open_error: ".data ++ m), zeroStats⟩) ∧
    (∀ pages, (process_document (Except.ok pages)).status = .completed ∧
      (process_document (Except.ok pages)).error = none ∧
      (process_document (Except.ok pages)).stats.pages = pages.length ∧
      (process_document (Except.ok pages)).stats.pages_skipped
        = (pages.filter isErrPage).length ∧
      (process_document (Except.ok pages)).stats.errors
        = (pages.enumFrom 1).filterMap errEntry) := by
  refine ⟨fun m => rfl, fun m => rfl, ?_⟩
  intro pages
  have h := pageFold_skipped_errors pages 1 ⟨0, 0, [], []⟩
  refine ⟨rfl, rfl, rfl, ?_, ?_⟩
  · show ((pages.enumFrom 1).foldl pageStep ⟨0, 0, [], []⟩).skipped = _
    rw [h.1]
    exact Nat.zero_add _
  · show ((pages.enumFrom 1).foldl pageStep ⟨0, 0, [], []⟩).errors = _
    rw [h.2]
    rfl

theorem process_document_page_isolation_witness :
    (process_document (Except.ok [Except.error "boom".data,
        Except.ok ⟨"Fund report text".data, []⟩])).status = PStatus.completed :=
  ((process_document_page_isolation).2.2
    [Except.error "boom".data, Except.ok ⟨"Fund report text".data, []⟩]).1

/-
QueryEngine.  The repository file app/services/query_engine.py is not
present under src (only its tests and its caller in
app/api/endpoints/chat.py are), so the engine is modelled from the spec.
-/

/-- A query intent. -/
inductive Intent where
  | calculation
  | definition
  | retrieval
  | general
deriving DecidableEq, Repr

/-- Modelled from the spec: `QueryEngine._classify_intent` of the missing
app/services/query_engine.py.  A lexical rule over the lowercased query:
computation-oriented vocabulary (`calculate`, the metric names `irr`,
`dpi`, `tvpi`, `pic`, `rvpi`, `nav`, and `what is the current`) selects
calculation; definitional vocabulary (`define`, `meaning of`,
`what does` with `mean`) selects definition; enumerative vocabulary
(`show me`, `list`, `documents`, `distributions`) selects retrieval;
anything else is general. -/
def classify_intent (q : Str) : Intent :=
  let ql := lowerS q
  if (["calculate", "irr", "dpi", "tvpi", "pic", "rvpi", "nav",
       "what is the current"].map String.data).any (fun k => isSubstrOf k ql) then
    .calculation
  else if (["define", "meaning of"].map String.data).any (fun k => isSubstrOf k ql) ∨
      (isSubstrOf "what does".data ql ∧ isSubstrOf "mean".data ql) then
    .definition
  else if (["show me", "list", "documents", "distributions"].map String.data).any
      (fun k => isSubstrOf k ql) then
    .retrieval
  else .general

/-- The metrics object of the Metrics collaborator
(`calculateAllMetrics`). -/
structure Metrics where
  pic : Option ℚ
  dpi : Option ℚ
  irr : Option ℚ
  tvpi : Option ℚ
  rvpi : Option ℚ
  nav : Option ℚ
  total_distributions : Option ℚ
deriving DecidableEq, Repr

/-- A retrieval candidate passed through as a cited source. -/
structure Source where
  content : Str
  document_id : Nat
  score : ℚ
deriving DecidableEq, Repr

/-- A query-engine response. -/
structure QEResponse where
  answer : Str
  metrics : Option Metrics
  sources : List Source
deriving DecidableEq, Repr

/-- Modelled from the spec: `QueryEngine.process_query` of the missing
app/services/query_engine.py.  The engine classifies the intent,
retrieves context through `hybridSearch` (the retrieved candidate list is
passed in as the collaborator's result), computes the metrics object via
the Metrics collaborator exactly for calculation intent, surfaces the
language generator's text verbatim, and passes every retrieved candidate
through as a source. -/
def process_query (q : Str) (fund : Nat) (retrieved : List Source)
    (metricsOf : Nat → Metrics) (genAnswer : Str) : QEResponse :=
  { answer := genAnswer
    metrics := if classify_intent q = .calculation then some (metricsOf fund) else none
    sources := retrieved }

/-- C9: a query of calculation intent — in particular any query containing
`dpi` — yields a non-null metrics object computed by the Metrics
collaborator and one source per retrieved candidate; definition and
general intents retrieve context but yield `metrics = None`. -/
theorem process_query_routing :
    (∀ q, isSubstrOf "dpi".data (lowerS q) = true → classify_intent q = .calculation) ∧
    (∀ q fund retrieved metricsOf genAnswer,
      classify_intent q = .calculation →
        (process_query q fund retrieved metricsOf genAnswer).metrics
            = some (metricsOf fund) ∧
          (process_query q fund retrieved metricsOf genAnswer).sources.length
            = retrieved.length) ∧
    (∀ q fund retrieved metricsOf genAnswer,
      classify_intent q = .definition ∨ classify_intent q = .general →
        (process_query q fund retrieved metricsOf genAnswer).metrics = none ∧
          (process_query q fund retrieved metricsOf genAnswer).sources.length
            = retrieved.length) := by
  refine ⟨?_, ?_, ?_⟩
  · intro q hq
    unfold classify_intent
    rw [if_pos]
    refine List.any_eq_true.mpr ⟨"dpi".data, ?_, hq⟩
    simp
  · intro q fund retrieved metricsOf genAnswer hc
    unfold process_query
    rw [if_pos hc]
    exact ⟨rfl, rfl⟩
  · intro q fund retrieved metricsOf genAnswer hd
    unfold process_query
    rw [if_neg ?_]
    · exact ⟨rfl, rfl⟩
    · rcases hd with hd | hd <;> rw [hd] <;> exact fun he => Intent.noConfusion he

theorem process_query_routing_witness :
    (process_query "What is the current DPI for this fund?".data 1
        [⟨"Context A".data, 10, mkRat 9 10⟩, ⟨"Context B".data, 11, mkRat 8 10⟩]
        (fun _ => ⟨some 100, some (mkRat 12 10), some 15, none, none, none, some 120⟩)
        "Answer with important numbers and sources".data).metrics
      = some ⟨some 100, some (mkRat 12 10), some 15, none, none, none, some 120⟩ ∧
    (process_query "What is the current DPI for this fund?".data 1
        [⟨"Context A".data, 10, mkRat 9 10⟩, ⟨"Context B".data, 11, mkRat 8 10⟩]
        (fun _ => ⟨some 100, some (mkRat 12 10), some 15, none, none, none, some 120⟩)
        "Answer with important numbers and sources".data).sources.length = 2 :=
  (process_query_routing).2.1 "What is the current DPI for this fund?".data 1
    [⟨"Context A".data, 10, mkRat 9 10⟩, ⟨"Context B".data, 11, mkRat 8 10⟩]
    (fun _ => ⟨some 100, some (mkRat 12 10), some 15, none, none, none, some 120⟩)
    "Answer with important numbers and sources".data (by decide)
